import Mathlib

/-!
Verification of the transcribo media transcription pipeline (src/main.py)
against its natural-language specification.

Modelling conventions:
* Durations are rationals: moviepy reports the video duration as a float and
  chunk durations are seconds; Python floor division `//` on nonnegative
  operands is `Int.floor` of the quotient, and `int(...)` of its result is
  exact.
* External effects (file existence, video duration, memory sampling, media
  writes, the speech service) are supplied by oracle fields of an environment
  record; each run records a trace of events (memory checks, subclip calls,
  chunk writes, transcription calls).
* `st.stop()` (invoked on a memory trip, src/main.py line 31) is a
  script-control signal whose purpose is to halt the Streamlit script; it is
  modelled as propagating past the generic exception handlers.  Every other
  raised error inside `to_chunks` is caught at lines 111-114 and turns the
  call into the return value `([], [])`.
-/

namespace Transcribo

/-- src/main.py line 79: `num_chunks = int(duration // chunk_duration) + 1`.
Only meaningful for a nonzero chunk duration; Python raises
`ZeroDivisionError` otherwise, which `to_chunks` catches. -/
def numChunks (duration chunkDuration : ℚ) : ℤ :=
  ⌊duration / chunkDuration⌋ + 1

/-- src/main.py line 89: `start_time = i * chunk_duration`. -/
def chunkStart (chunkDuration : ℚ) (i : ℕ) : ℚ := i * chunkDuration

/-- src/main.py line 90: `end_time = min((i + 1) * chunk_duration, duration)`. -/
def chunkEnd (duration chunkDuration : ℚ) (i : ℕ) : ℚ :=
  min ((i + 1) * chunkDuration) duration

/-- The half-open time span covered by chunk `i`. -/
def chunkSpan (duration chunkDuration : ℚ) (i : ℕ) : Set ℚ :=
  Set.Ico (chunkStart chunkDuration i) (chunkEnd duration chunkDuration i)

/-- src/main.py line 94: `os.path.join(temp_dir, f"video_chunk_i.mp4")`. -/
def videoChunkPath (tempDir : String) (i : ℕ) : String :=
  tempDir ++ "/video_chunk_" ++ toString i ++ ".mp4"

/-- src/main.py line 101: `os.path.join(temp_dir, f"audio_chunk_i.wav")`. -/
def audioChunkPath (tempDir : String) (i : ℕ) : String :=
  tempDir ++ "/audio_chunk_" ++ toString i ++ ".wav"

/-- Oracles for the external effects seen by `to_chunks`. -/
structure Env where
  /-- `os.path.exists(video_file)`, line 74. -/
  videoExists : Bool
  /-- `video.duration`, line 78. -/
  duration : ℚ
  /-- whether the memory check before chunk `i` (lines 85-87) finds
  resident memory above the ceiling and hence calls `st.stop()`. -/
  memTrips : ℕ → Bool
  /-- whether `write_videofile` for chunk `i` (lines 95-97) raises. -/
  videoWriteFails : ℕ → Bool
  /-- whether `write_audiofile` for chunk `i` (line 102) raises. -/
  audioWriteFails : ℕ → Bool

/-- One observable operation of a pipeline run. -/
inductive Event where
  | memCheck (i : ℕ)
  | subclip (i : ℕ) (startTime endTime : ℚ)
  | writeVideo (i : ℕ) (path : String)
  | writeAudio (i : ℕ) (path : String)
  | transcribe (path : String)
deriving Repr, DecidableEq

/-- Result of the chunking loop body, lines 84-106. -/
inductive LoopResult where
  | stopped
  | raised
  | ok (videoChunks audioChunks : List String)
deriving Repr, DecidableEq

/-- The loop of `to_chunks` (src/main.py lines 84-106) over the remaining
chunk indices, carrying the accumulated `video_chunks` and `audio_chunks`
lists and emitting the trace of performed operations. -/
def chunkLoop (env : Env) (tempDir : String) (chunkDuration : ℚ) :
    List ℕ → List String → List String → LoopResult × List Event
  | [], vcs, acs => (LoopResult.ok vcs acs, [])
  | i :: rest, vcs, acs =>
    if env.memTrips i then
      (LoopResult.stopped, [Event.memCheck i])
    else
      let s := chunkStart chunkDuration i
      let e := chunkEnd env.duration chunkDuration i
      if env.videoWriteFails i then
        (LoopResult.raised, [Event.memCheck i, Event.subclip i s e])
      else
        let vp := videoChunkPath tempDir i
        if env.audioWriteFails i then
          (LoopResult.raised,
            [Event.memCheck i, Event.subclip i s e, Event.writeVideo i vp])
        else
          let ap := audioChunkPath tempDir i
          let r := chunkLoop env tempDir chunkDuration rest (vcs ++ [vp]) (acs ++ [ap])
          (r.1, Event.memCheck i :: Event.subclip i s e ::
                Event.writeVideo i vp :: Event.writeAudio i ap :: r.2)

/-- Return value of `to_chunks`: either the script was stopped by the memory
guard, or the function returned a pair of path lists (lines 109 and 115). -/
inductive ChunksReturn where
  | stopped
  | returned (videoChunks audioChunks : List String)
deriving Repr, DecidableEq

/-- `to_chunks` (src/main.py lines 61-115).  A missing video file raises
`FileNotFoundError` (line 75) which is caught at line 111; a zero chunk
duration raises `ZeroDivisionError` at line 79, caught at line 113; any
raised error during the loop is caught at line 113.  All caught paths
return `([], [])` (line 115).  A memory trip stops the script. -/
def to_chunks (env : Env) (tempDir : String) (chunkDuration : ℚ) :
    ChunksReturn × List Event :=
  if ¬ env.videoExists then
    (ChunksReturn.returned [] [], [])
  else if chunkDuration = 0 then
    (ChunksReturn.returned [] [], [])
  else
    let n := (numChunks env.duration chunkDuration).toNat
    match chunkLoop env tempDir chunkDuration (List.range n) [] [] with
    | (LoopResult.stopped, evs) => (ChunksReturn.stopped, evs)
    | (LoopResult.raised, evs) => (ChunksReturn.returned [] [], evs)
    | (LoopResult.ok vcs acs, evs) => (ChunksReturn.returned vcs acs, evs)

/-! ### Transcription (src/main.py lines 118-148 and 182-198) -/

/-- What the speech-recognition collaborator does for one audio chunk:
it returns recognized text, raises `sr.UnknownValueError` (line 139), or
raises `sr.RequestError` (line 141). -/
inductive RecognizeOutcome where
  | recognized (text : String)
  | unknownValue
  | requestError
deriving Repr, DecidableEq

/-- The sentinel string returned on every failure path, line 148. -/
def inaudibleSentinel : String := "[Inaudible response]"

/-- `transcribe_audio` (src/main.py lines 118-148).  A missing audio file
raises `FileNotFoundError` (line 132), caught at line 143; both
`sr.UnknownValueError` and `sr.RequestError` are caught at lines 139-142 and
fall through to line 148.  Every path returns a string; nothing escapes. -/
def transcribe_audio (fileExists : Bool) (outcome : RecognizeOutcome) : String :=
  if ¬ fileExists then inaudibleSentinel
  else
    match outcome with
    | RecognizeOutcome.recognized text => text
    | RecognizeOutcome.unknownValue => inaudibleSentinel
    | RecognizeOutcome.requestError => inaudibleSentinel

/-- The accumulated `transcription_result` string after the transcription
loop (src/main.py lines 186-191) has processed the given outcomes:
each iteration appends the transcription followed by one space. -/
def transcriptAccum (outcomes : List RecognizeOutcome) : String :=
  outcomes.foldl (fun acc o => acc ++ transcribe_audio true o ++ " ") ""

/-- The string published to the placeholder after `k` chunks have been
processed (src/main.py line 196): the accumulated result followed by a
period, from `f"transcription_result."`. -/
def snapshot (outcomes : List RecognizeOutcome) (k : ℕ) : String :=
  transcriptAccum (outcomes.take k) ++ "."

/-- The full sequence of snapshots published during the loop, one per
chunk (the placeholder is updated once per iteration, lines 194-198). -/
def publishedSnapshots (outcomes : List RecognizeOutcome) : List String :=
  (List.range outcomes.length).map (fun i => snapshot outcomes (i + 1))

/-! ### Cleanup (src/main.py lines 205-218) -/

/-- The state of the temporary workspace directory. -/
structure Workspace where
  dirExists : Bool
  files : List String
deriving Repr, DecidableEq

/-- The `finally` cleanup block of `main` (src/main.py lines 205-218).
`os.listdir` on a missing directory raises, caught at line 217, leaving the
state unchanged.  Otherwise each listed file is removed (lines 209-212),
then the directory itself when the listing is empty (lines 215-216).
The boolean records whether an exception escaped to the caller: the
`except` at line 217 catches everything, so it is always `false`. -/
def cleanup_temp (ws : Workspace) : Workspace × Bool :=
  if ws.dirExists then
    let remaining := ws.files.foldl (fun fs p => fs.erase p) ws.files
    if remaining = [] then ({ dirExists := false, files := [] }, false)
    else ({ dirExists := true, files := remaining }, false)
  else
    (ws, false)

/-! ### The orchestrating `main` (src/main.py lines 151-218) -/

/-- Environment for a `main` run: the chunking oracles plus, for each
chunk position, what the speech collaborator does. -/
structure MainEnv where
  chunkEnv : Env
  tempDir : String
  chunkDuration : ℚ
  recOutcome : ℕ → RecognizeOutcome

/-- Terminal shape of a `main` run. -/
inductive MainResult where
  /-- `st.stop()` propagated: the script halted on the memory guard. -/
  | stopped (events : List Event)
  /-- `to_chunks` returned an empty list: `st.error` then `return`
  (lines 178-180). -/
  | failed (events : List Event)
  /-- the transcription loop ran to completion, publishing the given
  snapshots (lines 186-200). -/
  | completed (events : List Event) (snapshots : List String)
deriving Repr, DecidableEq

/-- The collaborator outcomes the loop will see for `n` chunks. -/
def outcomesFor (menv : MainEnv) (n : ℕ) : List RecognizeOutcome :=
  (List.range n).map menv.recOutcome

/-- The pipeline portion of `main` (src/main.py lines 172-200): chunk the
video, bail out on an empty chunk list (line 174: `if video_chunks and
audio_chunks` is false when either list is empty), otherwise transcribe
every audio chunk in order. -/
def main (menv : MainEnv) : MainResult :=
  match to_chunks menv.chunkEnv menv.tempDir menv.chunkDuration with
  | (ChunksReturn.stopped, evs) => MainResult.stopped evs
  | (ChunksReturn.returned vcs acs, evs) =>
    if vcs = [] ∨ acs = [] then MainResult.failed evs
    else
      MainResult.completed (evs ++ acs.map Event.transcribe)
        (publishedSnapshots (outcomesFor menv acs.length))

/-! ### Loop lemmas -/

/-- The four events of one completed chunk-loop iteration. -/
def iterEvents (env : Env) (tempDir : String) (chunkDuration : ℚ) (i : ℕ) :
    List Event :=
  [Event.memCheck i,
   Event.subclip i (chunkStart chunkDuration i) (chunkEnd env.duration chunkDuration i),
   Event.writeVideo i (videoChunkPath tempDir i),
   Event.writeAudio i (audioChunkPath tempDir i)]

/-- An environment whose video exists and whose oracles never fail. -/
def cleanEnv (duration : ℚ) : Env :=
  { videoExists := true
    duration := duration
    memTrips := fun _ => false
    videoWriteFails := fun _ => false
    audioWriteFails := fun _ => false }

lemma chunkLoop_clean (env : Env) (tempDir : String) (S : ℚ) (l : List ℕ)
    (hm : ∀ j ∈ l, env.memTrips j = false)
    (hv : ∀ j ∈ l, env.videoWriteFails j = false)
    (ha : ∀ j ∈ l, env.audioWriteFails j = false)
    (vcs acs : List String) :
    chunkLoop env tempDir S l vcs acs =
      (LoopResult.ok (vcs ++ l.map (videoChunkPath tempDir))
        (acs ++ l.map (audioChunkPath tempDir)),
       l.flatMap (iterEvents env tempDir S)) := by
  induction l generalizing vcs acs with
  | nil => simp [chunkLoop]
  | cons i rest ih =>
    simp only [List.mem_cons, forall_eq_or_imp] at hm hv ha
    simp [chunkLoop, hm.1, hv.1, ha.1, ih hm.2 hv.2 ha.2, iterEvents]

lemma chunkLoop_ok_shape (env : Env) (tempDir : String) (S : ℚ) (l : List ℕ)
    (vcs acs vcs2 acs2 : List String) (evs : List Event)
    (h : chunkLoop env tempDir S l vcs acs = (LoopResult.ok vcs2 acs2, evs)) :
    vcs2 = vcs ++ l.map (videoChunkPath tempDir) ∧
      acs2 = acs ++ l.map (audioChunkPath tempDir) := by
  induction l generalizing vcs acs evs with
  | nil =>
    simp only [chunkLoop, Prod.mk.injEq, LoopResult.ok.injEq] at h
    simp [← h.1.1, ← h.1.2]
  | cons i rest ih =>
    by_cases hm : env.memTrips i
    · simp [chunkLoop, hm] at h
    · by_cases hv : env.videoWriteFails i
      · simp [chunkLoop, hm, hv] at h
      · by_cases ha : env.audioWriteFails i
        · simp [chunkLoop, hm, hv, ha] at h
        · simp only [chunkLoop, hm, hv, ha, if_false, Bool.false_eq_true,
            if_neg, Prod.mk.injEq] at h
          have h2 := ih (vcs ++ [videoChunkPath tempDir i])
            (acs ++ [audioChunkPath tempDir i]) _
            (Prod.ext h.1 rfl)
          simpa using h2

lemma chunkLoop_stopped_at (env : Env) (tempDir : String) (S : ℚ)
    (l1 : List ℕ) (i : ℕ) (l2 : List ℕ)
    (hm : ∀ j ∈ l1, env.memTrips j = false)
    (hv : ∀ j ∈ l1, env.videoWriteFails j = false)
    (ha : ∀ j ∈ l1, env.audioWriteFails j = false)
    (htrip : env.memTrips i = true)
    (vcs acs : List String) :
    chunkLoop env tempDir S (l1 ++ i :: l2) vcs acs =
      (LoopResult.stopped, l1.flatMap (iterEvents env tempDir S) ++ [Event.memCheck i]) := by
  induction l1 generalizing vcs acs with
  | nil => simp [chunkLoop, htrip]
  | cons j rest ih =>
    simp only [List.mem_cons, forall_eq_or_imp] at hm hv ha
    simp [chunkLoop, hm.1, hv.1, ha.1, ih hm.2 hv.2 ha.2, iterEvents]

/-- A clean run of `to_chunks` on an existing source returns one video path
and one audio path per index below `num_chunks`, together with the full
iteration trace. -/
lemma to_chunks_clean (D : ℚ) (tempDir : String) (S : ℚ) (hS0 : S ≠ 0)
    (n : ℕ) (hn : (numChunks D S).toNat = n) :
    to_chunks (cleanEnv D) tempDir S =
      (ChunksReturn.returned ((List.range n).map (videoChunkPath tempDir))
        ((List.range n).map (audioChunkPath tempDir)),
       (List.range n).flatMap (iterEvents (cleanEnv D) tempDir S)) := by
  have he : (cleanEnv D).videoExists = true := rfl
  have hd : (cleanEnv D).duration = D := rfl
  have hrun := chunkLoop_clean (cleanEnv D) tempDir S (List.range n)
    (fun j _ => rfl) (fun j _ => rfl) (fun j _ => rfl) [] []
  simp only [to_chunks, he, hd, hn, hS0, Bool.true_eq_false, not_true_eq_false,
    if_neg, if_false, ite_false]
  simp [hrun]

/-! ### C1: number of segments -/

/-- C1 counterexample: the claim says splitting a 120-second source into
60-second segments produces `ceil(120/60) = 2` segments and a zero-duration
source produces none; the code produces `120 // 60 + 1 = 3` segments for the
former and one (empty-span) segment for the latter. -/
theorem chunk_count_not_ceil :
    (to_chunks (cleanEnv 120) "./temp" 60).1 =
      ChunksReturn.returned
        [videoChunkPath "./temp" 0, videoChunkPath "./temp" 1, videoChunkPath "./temp" 2]
        [audioChunkPath "./temp" 0, audioChunkPath "./temp" 1, audioChunkPath "./temp" 2] ∧
    (⌈(120 : ℚ) / 60⌉ : ℤ) = 2 ∧
    (to_chunks (cleanEnv 0) "./temp" 60).1 =
      ChunksReturn.returned [videoChunkPath "./temp" 0] [audioChunkPath "./temp" 0] := by
  have h3 : (numChunks (120 : ℚ) 60).toNat = 3 := by
    have h : numChunks (120 : ℚ) 60 = 3 := by norm_num [numChunks]
    rw [h]; rfl
  have h1 : (numChunks (0 : ℚ) 60).toNat = 1 := by
    have h : numChunks (0 : ℚ) 60 = 1 := by norm_num [numChunks]
    rw [h]; rfl
  refine ⟨?_, by norm_num, ?_⟩
  · rw [to_chunks_clean 120 "./temp" 60 (by norm_num) 3 h3]
    simp [List.range_succ]
  · rw [to_chunks_clean 0 "./temp" 60 (by norm_num) 1 h1]
    simp [List.range_succ]

/-- C1 (amended): for a readable source of duration `D ≥ 0` and segment
duration `S > 0`, a clean run of `to_chunks` returns `⌊D/S⌋ + 1` segments:
that is `ceil(D/S)` when `S` does not divide `D`, but `ceil(D/S) + 1` (one
extra, empty-span segment) when `D` is an exact multiple of `S` — in
particular a zero-duration source yields one segment, not zero. -/
theorem chunk_count_floor_succ (env : Env) (tempDir : String) (S : ℚ)
    (hS : 0 < S) (hD : 0 ≤ env.duration) (hex : env.videoExists = true)
    (hm : ∀ j, env.memTrips j = false)
    (hv : ∀ j, env.videoWriteFails j = false)
    (ha : ∀ j, env.audioWriteFails j = false) :
    ∃ vcs acs, (to_chunks env tempDir S).1 = ChunksReturn.returned vcs acs ∧
      (vcs.length : ℤ) = ⌊env.duration / S⌋ + 1 ∧
      ((∃ k : ℤ, env.duration = (k : ℚ) * S) →
        (vcs.length : ℤ) = ⌈env.duration / S⌉ + 1) ∧
      (¬ (∃ k : ℤ, env.duration = (k : ℚ) * S) →
        (vcs.length : ℤ) = ⌈env.duration / S⌉) := by
  have hS0 : S ≠ 0 := ne_of_gt hS
  have hfl : (0 : ℤ) ≤ ⌊env.duration / S⌋ :=
    Int.floor_nonneg.mpr (div_nonneg hD (le_of_lt hS))
  have hnum : numChunks env.duration S = ⌊env.duration / S⌋ + 1 := rfl
  have hpos : (0 : ℤ) ≤ numChunks env.duration S := by omega
  have hrun := chunkLoop_clean env tempDir S
    (List.range (numChunks env.duration S).toNat)
    (fun j _ => hm j) (fun j _ => hv j) (fun j _ => ha j) [] []
  have hlen : (((List.range (numChunks env.duration S).toNat).map
      (videoChunkPath tempDir)).length : ℤ) = ⌊env.duration / S⌋ + 1 := by
    simp only [List.length_map, List.length_range]
    rw [Int.toNat_of_nonneg hpos, hnum]
  refine ⟨(List.range (numChunks env.duration S).toNat).map (videoChunkPath tempDir),
    (List.range (numChunks env.duration S).toNat).map (audioChunkPath tempDir), ?_, hlen, ?_, ?_⟩
  · simp [to_chunks, hex, hS0, hrun]
  · rintro ⟨k, hk⟩
    have hq : env.duration / S = (k : ℚ) := by
      rw [hk, mul_div_assoc, div_self hS0, mul_one]
    rw [hlen, hq, Int.floor_intCast, Int.ceil_intCast]
  · intro hndiv
    have hne : (⌊env.duration / S⌋ : ℚ) ≠ env.duration / S := by
      intro heq
      refine hndiv ⟨⌊env.duration / S⌋, ?_⟩
      rw [heq, div_mul_cancel₀ _ hS0]
    have hceil : ⌈env.duration / S⌉ = ⌊env.duration / S⌋ + 1 := by
      rw [Int.ceil_eq_iff]
      refine ⟨?_, ?_⟩
      · push_cast
        rw [add_sub_cancel_right]
        exact lt_of_le_of_ne (Int.floor_le (env.duration / S)) hne
      · push_cast
        exact le_of_lt (Int.lt_floor_add_one _)
    rw [hlen, hceil]

/-- C1 witness: a clean 150-second source with 60-second segments. -/
theorem chunk_count_floor_succ_witness :
    ∃ vcs acs, (to_chunks (cleanEnv 150) "./tmp" 60).1 = ChunksReturn.returned vcs acs ∧
      (vcs.length : ℤ) = ⌊(cleanEnv 150).duration / 60⌋ + 1 ∧
      ((∃ k : ℤ, (cleanEnv 150).duration = (k : ℚ) * 60) →
        (vcs.length : ℤ) = ⌈(cleanEnv 150).duration / 60⌉ + 1) ∧
      (¬ (∃ k : ℤ, (cleanEnv 150).duration = (k : ℚ) * 60) →
        (vcs.length : ℤ) = ⌈(cleanEnv 150).duration / 60⌉) :=
  chunk_count_floor_succ (cleanEnv 150) "./tmp" 60 (by norm_num)
    (by norm_num [cleanEnv]) rfl (fun _ => rfl) (fun _ => rfl) (fun _ => rfl)

/-! ### C10: shape of the returned pair -/

/-- C10: whenever `to_chunks` returns, the video-chunk list and the
audio-chunk list have equal length: on success each holds one path per
segment index in index order, and on any caught failure both are empty. -/
theorem to_chunks_equal_lengths (env : Env) (tempDir : String) (S : ℚ)
    (vcs acs : List String)
    (h : (to_chunks env tempDir S).1 = ChunksReturn.returned vcs acs) :
    vcs.length = acs.length ∧
    ((vcs = [] ∧ acs = []) ∨
      (vcs = (List.range vcs.length).map (videoChunkPath tempDir) ∧
       acs = (List.range vcs.length).map (audioChunkPath tempDir))) := by
  by_cases hex : env.videoExists
  · by_cases hS0 : S = 0
    · simp only [to_chunks, hex, hS0] at h
      obtain ⟨rfl, rfl⟩ := h
      simp
    · rcases hres : chunkLoop env tempDir S
        (List.range (numChunks env.duration S).toNat) [] [] with ⟨lr, evs⟩
      cases lr with
      | stopped =>
        simp only [to_chunks, hex, hS0] at h
        rw [hres] at h
        simp at h
      | raised =>
        simp only [to_chunks, hex, hS0] at h
        rw [hres] at h
        obtain ⟨rfl, rfl⟩ := h
        simp
      | ok vcs2 acs2 =>
        obtain ⟨h1, h2⟩ := chunkLoop_ok_shape env tempDir S _ _ _ _ _ _ hres
        simp only [to_chunks, hex, hS0] at h
        rw [hres] at h
        simp only [List.nil_append] at h1 h2
        subst h1 h2
        simp at h
        rw [← h.1, ← h.2]
        simp
  · simp only [to_chunks, hex] at h
    simp at h
    obtain ⟨rfl, rfl⟩ := h
    simp

/-- C10 witness: a clean 150-second source split into 60-second chunks. -/
theorem to_chunks_equal_lengths_witness :
    ((List.range 3).map (videoChunkPath "./temp")).length =
      ((List.range 3).map (audioChunkPath "./temp")).length ∧
    (((List.range 3).map (videoChunkPath "./temp") = [] ∧
      (List.range 3).map (audioChunkPath "./temp") = []) ∨
     ((List.range 3).map (videoChunkPath "./temp") =
        (List.range ((List.range 3).map (videoChunkPath "./temp")).length).map
          (videoChunkPath "./temp") ∧
      (List.range 3).map (audioChunkPath "./temp") =
        (List.range ((List.range 3).map (videoChunkPath "./temp")).length).map
          (audioChunkPath "./temp"))) := by
  have h3 : (numChunks (150 : ℚ) 60).toNat = 3 := by
    have h : numChunks (150 : ℚ) 60 = 3 := by norm_num [numChunks]
    rw [h]; rfl
  exact to_chunks_equal_lengths (cleanEnv 150) "./temp" 60 _ _
    (by rw [to_chunks_clean 150 "./temp" 60 (by norm_num) 3 h3])

/-! ### C2: segment spans partition the source -/

/-- C2: on a clean run, every subclip call for index `i` carves exactly
the span `[i*S, min((i+1)*S, D))`; the chunk spans are pairwise disjoint and
their union over the produced indices is exactly `[0, D)`; a 150-second
source with 60-second segments yields three segments spanning `[0,60)`,
`[60,120)` and `[120,150)`. -/
theorem chunk_spans_partition (env : Env) (tempDir : String) (S : ℚ)
    (hS : 0 < S) (_hD : 0 ≤ env.duration) (hex : env.videoExists = true)
    (hm : ∀ j, env.memTrips j = false)
    (hv : ∀ j, env.videoWriteFails j = false)
    (ha : ∀ j, env.audioWriteFails j = false) :
    (∀ i s e, Event.subclip i s e ∈ (to_chunks env tempDir S).2 →
       s = i * S ∧ e = min ((i + 1) * S) env.duration) ∧
    (∀ i j : ℕ, i ≠ j →
       Disjoint (chunkSpan env.duration S i) (chunkSpan env.duration S j)) ∧
    (⋃ i ∈ Finset.range (numChunks env.duration S).toNat,
       chunkSpan env.duration S i) = Set.Ico (0 : ℚ) env.duration ∧
    numChunks 150 60 = 3 ∧
    chunkSpan 150 60 0 = Set.Ico (0 : ℚ) 60 ∧
    chunkSpan 150 60 1 = Set.Ico (60 : ℚ) 120 ∧
    chunkSpan 150 60 2 = Set.Ico (120 : ℚ) 150 := by
  have hS0 : S ≠ 0 := ne_of_gt hS
  have hrun := chunkLoop_clean env tempDir S
    (List.range (numChunks env.duration S).toNat)
    (fun j _ => hm j) (fun j _ => hv j) (fun j _ => ha j) [] []
  refine ⟨?_, ?_, ?_, by norm_num [numChunks], ?_, ?_, ?_⟩
  · intro i s e hmem
    have hevs : (to_chunks env tempDir S).2 =
        (List.range (numChunks env.duration S).toNat).flatMap
          (iterEvents env tempDir S) := by
      simp [to_chunks, hex, hS0, hrun]
    rw [hevs] at hmem
    simp only [List.mem_flatMap, iterEvents, List.mem_cons,
      List.mem_singleton, List.not_mem_nil, or_false] at hmem
    obtain ⟨j, _, hj⟩ := hmem
    rcases hj with hj | hj | hj | hj
    · exact absurd hj (by simp)
    · obtain ⟨rfl, rfl, rfl⟩ := Event.subclip.inj hj
      exact ⟨rfl, rfl⟩
    · exact absurd hj (by simp)
    · exact absurd hj (by simp)
  · have key : ∀ i j : ℕ, i < j →
        Disjoint (chunkSpan env.duration S i) (chunkSpan env.duration S j) := by
      intro i j hij
      apply Set.disjoint_left.mpr
      intro x hxi hxj
      have h1 : x < (i + 1 : ℚ) * S :=
        lt_of_lt_of_le hxi.2 (min_le_left _ _)
      have h2 : (j : ℚ) * S ≤ x := hxj.1
      have hle : ((i : ℚ) + 1) * S ≤ (j : ℚ) * S := by
        have : ((i : ℚ) + 1) ≤ (j : ℚ) := by exact_mod_cast hij
        exact mul_le_mul_of_nonneg_right this (le_of_lt hS)
      linarith
    intro i j hij
    rcases lt_or_gt_of_ne hij with h | h
    · exact key i j h
    · exact (key j i h).symm
  · ext x
    simp only [Set.mem_iUnion, Finset.mem_range, chunkSpan, chunkStart, chunkEnd,
      Set.mem_Ico, exists_prop]
    constructor
    · rintro ⟨i, _, hx⟩
      refine ⟨le_trans ?_ hx.1, lt_of_lt_of_le hx.2 (min_le_right _ _)⟩
      exact mul_nonneg (Nat.cast_nonneg i) (le_of_lt hS)
    · rintro ⟨hx0, hxD⟩
      have hm0 : (0 : ℤ) ≤ ⌊x / S⌋ :=
        Int.floor_nonneg.mpr (div_nonneg hx0 (le_of_lt hS))
      have hcast : ((⌊x / S⌋.toNat : ℕ) : ℚ) = ((⌊x / S⌋ : ℤ) : ℚ) := by
        exact_mod_cast congrArg (Int.cast : ℤ → ℚ) (Int.toNat_of_nonneg hm0)
      refine ⟨⌊x / S⌋.toNat, ?_, ?_, ?_⟩
      · have hxq : x / S ≤ env.duration / S :=
          div_le_div_of_nonneg_right (le_of_lt hxD) (le_of_lt hS)
        have hmono : ⌊x / S⌋ ≤ ⌊env.duration / S⌋ := Int.floor_le_floor hxq
        have hnum : numChunks env.duration S = ⌊env.duration / S⌋ + 1 := rfl
        omega
      · rw [hcast]
        exact (le_div_iff₀ hS).mp (Int.floor_le _)
      · refine lt_min ?_ hxD
        rw [hcast]
        exact (div_lt_iff₀ hS).mp (Int.lt_floor_add_one _)
  · norm_num [chunkSpan, chunkStart, chunkEnd]
  · norm_num [chunkSpan, chunkStart, chunkEnd]
  · norm_num [chunkSpan, chunkStart, chunkEnd]

/-- C2 witness: a clean 150-second source with 60-second segments. -/
theorem chunk_spans_partition_witness :
    (∀ i s e, Event.subclip i s e ∈ (to_chunks (cleanEnv 150) "./temp" 60).2 →
       s = (i : ℚ) * 60 ∧ e = min (((i : ℚ) + 1) * 60) (cleanEnv 150).duration) ∧
    (∀ i j : ℕ, i ≠ j →
       Disjoint (chunkSpan (cleanEnv 150).duration 60 i)
         (chunkSpan (cleanEnv 150).duration 60 j)) ∧
    (⋃ i ∈ Finset.range (numChunks (cleanEnv 150).duration 60).toNat,
       chunkSpan (cleanEnv 150).duration 60 i) =
      Set.Ico (0 : ℚ) (cleanEnv 150).duration ∧
    numChunks 150 60 = 3 ∧
    chunkSpan 150 60 0 = Set.Ico (0 : ℚ) 60 ∧
    chunkSpan 150 60 1 = Set.Ico (60 : ℚ) 120 ∧
    chunkSpan 150 60 2 = Set.Ico (120 : ℚ) 150 :=
  chunk_spans_partition (cleanEnv 150) "./temp" 60 (by norm_num)
    (by norm_num [cleanEnv]) rfl (fun _ => rfl) (fun _ => rfl) (fun _ => rfl)

/-! ### Transcript lemmas -/

lemma transcriptAccum_shift (l : List RecognizeOutcome) (s : String) :
    l.foldl (fun acc o => acc ++ transcribe_audio true o ++ " ") s =
      s ++ transcriptAccum l := by
  induction l generalizing s with
  | nil => simp [transcriptAccum, String.append_empty]
  | cons o rest ih =>
    simp only [List.foldl_cons, transcriptAccum]
    rw [ih, ih (((("" : String) ++ transcribe_audio true o) ++ " "))]
    simp [String.append_assoc]

lemma transcriptAccum_append (a b : List RecognizeOutcome) :
    transcriptAccum (a ++ b) = transcriptAccum a ++ transcriptAccum b := by
  simp only [transcriptAccum, List.foldl_append]
  rw [transcriptAccum_shift]
  rfl

lemma transcriptAccum_take_succ (outcomes : List RecognizeOutcome) (j : ℕ)
    (hj : j < outcomes.length) :
    transcriptAccum (outcomes.take (j + 1)) =
      transcriptAccum (outcomes.take j) ++
        (transcribe_audio true (outcomes.get ⟨j, hj⟩) ++ " ") := by
  have h1 : outcomes.take (j + 1) =
      outcomes.take j ++ (outcomes.drop j).take 1 := List.take_add outcomes j 1
  have h2 : outcomes.drop j = outcomes.get ⟨j, hj⟩ :: outcomes.drop (j + 1) := by
    rw [List.drop_eq_getElem_cons hj]
    simp
  rw [h1, h2, transcriptAccum_append]
  simp only [List.take_succ_cons, List.take_zero, transcriptAccum, List.foldl_cons,
    List.foldl_nil]
  rfl

lemma transcriptAccum_mono (outcomes : List RecognizeOutcome) (j k : ℕ)
    (hjk : j ≤ k) :
    ∃ t, transcriptAccum (outcomes.take j) ++ t =
      transcriptAccum (outcomes.take k) := by
  refine ⟨transcriptAccum ((outcomes.drop j).take (k - j)), ?_⟩
  rw [← transcriptAccum_append, ← List.take_add,
    Nat.add_sub_cancel' hjk]

lemma foldl_string_append_shift (xs : List String) (s : String) :
    xs.foldl (· ++ ·) s = s ++ xs.foldl (· ++ ·) "" := by
  induction xs generalizing s with
  | nil => simp
  | cons x rest ih =>
    simp only [List.foldl_cons]
    rw [ih, ih (("" : String) ++ x)]
    simp [String.append_assoc]

lemma string_join_cons (x : String) (xs : List String) :
    String.join (x :: xs) = x ++ String.join xs := by
  simp only [String.join, List.foldl_cons]
  rw [foldl_string_append_shift]
  rfl

lemma transcriptAccum_eq_join (l : List RecognizeOutcome) :
    transcriptAccum l =
      String.join (l.map (fun o => transcribe_audio true o ++ " ")) := by
  induction l with
  | nil => rfl
  | cons o rest ih =>
    have hsplit : transcriptAccum (o :: rest) =
        (transcribe_audio true o ++ " ") ++ transcriptAccum rest := by
      have := transcriptAccum_append [o] rest
      simpa [transcriptAccum] using this
    rw [hsplit, ih, List.map_cons, string_join_cons]

/-! ### C3: transcript snapshots -/

/-- C3 counterexample: with two recognized segments `"a"` and `"b"`, the
snapshot published after segment 0 is `"a ."` — not the plain concatenation
`"a"` of the outcome texts (a separator space and a display period are
appended) — and it is not a string prefix of the next snapshot `"a b ."`,
because the trailing period moves. -/
theorem snapshot_not_plain_concat :
    snapshot [RecognizeOutcome.recognized "a", RecognizeOutcome.recognized "b"] 1 ≠ "a" ∧
    ¬ ∃ t, snapshot [RecognizeOutcome.recognized "a",
        RecognizeOutcome.recognized "b"] 1 ++ t =
      snapshot [RecognizeOutcome.recognized "a",
        RecognizeOutcome.recognized "b"] 2 := by
  have e1 : snapshot [RecognizeOutcome.recognized "a",
      RecognizeOutcome.recognized "b"] 1 = "a ." := by decide
  have e2 : snapshot [RecognizeOutcome.recognized "a",
      RecognizeOutcome.recognized "b"] 2 = "a b ." := by decide
  refine ⟨by rw [e1]; decide, ?_⟩
  rintro ⟨t, ht⟩
  rw [e1, e2] at ht
  have hd := congrArg String.data ht
  rw [String.data_append] at hd
  have h1 : ("a ." : String).data = ['a', ' ', '.'] := rfl
  have h2 : ("a b ." : String).data = ['a', ' ', 'b', ' ', '.'] := rfl
  rw [h1, h2] at hd
  simp at hd

/-- C3 (amended): the snapshot published after processing segment `i` is the
in-order concatenation of the outcome texts for segments `0..i`, each
followed by one separator space, with a single trailing period appended for
display; it contains nothing beyond segment `i`.  The accumulated
transcript — the published snapshot minus that final period — grows
monotonically: every earlier accumulation is a prefix of every later one, so
no published segment text is ever removed or changed (though the literal
published snapshots differ in their final period). -/
theorem snapshot_sep_concat (outcomes : List RecognizeOutcome) (i : ℕ)
    (_hi : i < outcomes.length) :
    snapshot outcomes (i + 1) =
      String.join ((outcomes.take (i + 1)).map
        (fun o => transcribe_audio true o ++ " ")) ++ "." ∧
    (∀ j k : ℕ, j ≤ k →
      ∃ t, transcriptAccum (outcomes.take j) ++ t =
        transcriptAccum (outcomes.take k)) ∧
    (∀ k : ℕ, snapshot outcomes k = transcriptAccum (outcomes.take k) ++ ".") := by
  refine ⟨?_, fun j k hjk => transcriptAccum_mono outcomes j k hjk, fun _ => rfl⟩
  rw [snapshot, transcriptAccum_eq_join]

/-- C3 witness: two segments, recognized as `"a"` then `"b"`. -/
theorem snapshot_sep_concat_witness :
    snapshot [RecognizeOutcome.recognized "a", RecognizeOutcome.recognized "b"] (0 + 1) =
      String.join (([RecognizeOutcome.recognized "a",
          RecognizeOutcome.recognized "b"].take (0 + 1)).map
        (fun o => transcribe_audio true o ++ " ")) ++ "." ∧
    (∀ j k : ℕ, j ≤ k →
      ∃ t, transcriptAccum ([RecognizeOutcome.recognized "a",
          RecognizeOutcome.recognized "b"].take j) ++ t =
        transcriptAccum ([RecognizeOutcome.recognized "a",
          RecognizeOutcome.recognized "b"].take k)) ∧
    (∀ k : ℕ, snapshot [RecognizeOutcome.recognized "a",
        RecognizeOutcome.recognized "b"] k =
      transcriptAccum ([RecognizeOutcome.recognized "a",
        RecognizeOutcome.recognized "b"].take k) ++ ".") :=
  snapshot_sep_concat
    [RecognizeOutcome.recognized "a", RecognizeOutcome.recognized "b"] 0
    (by decide)

/-! ### C4: per-segment failures are non-fatal -/

/-- C4: `transcribe_audio` is total in the model — every collaborator
outcome, including the raising ones, is mapped to a returned string — and a
failing outcome (service failure or unrecognizable audio) on segment `i`
does not abort the loop: a snapshot is still published for every chunk, and
the outcome text of every later segment `j` appears in every accumulated
transcript from `j + 1` on, right after the text accumulated for segments
before `j`. -/
theorem segment_failure_non_fatal (outcomes : List RecognizeOutcome)
    (i j : ℕ) (hi : i < outcomes.length)
    (_hfail : outcomes.get ⟨i, hi⟩ = RecognizeOutcome.unknownValue ∨
             outcomes.get ⟨i, hi⟩ = RecognizeOutcome.requestError)
    (_hij : i < j) (hj : j < outcomes.length) :
    (publishedSnapshots outcomes).length = outcomes.length ∧
    ∀ k, j < k → k ≤ outcomes.length →
      ∃ t, transcriptAccum (outcomes.take k) =
        transcriptAccum (outcomes.take j) ++
          (transcribe_audio true (outcomes.get ⟨j, hj⟩) ++ " ") ++ t := by
  refine ⟨by simp [publishedSnapshots], ?_⟩
  intro k hjk _hk
  obtain ⟨t, ht⟩ := transcriptAccum_mono outcomes (j + 1) k hjk
  refine ⟨t, ?_⟩
  rw [← ht, transcriptAccum_take_succ outcomes j hj]

/-- C4 witness: the first segment hits a service failure, the second is
recognized. -/
theorem segment_failure_non_fatal_witness :
    (publishedSnapshots [RecognizeOutcome.requestError,
        RecognizeOutcome.recognized "ok"]).length =
      [RecognizeOutcome.requestError, RecognizeOutcome.recognized "ok"].length ∧
    ∀ k, 1 < k → k ≤ [RecognizeOutcome.requestError,
        RecognizeOutcome.recognized "ok"].length →
      ∃ t, transcriptAccum ([RecognizeOutcome.requestError,
          RecognizeOutcome.recognized "ok"].take k) =
        transcriptAccum ([RecognizeOutcome.requestError,
            RecognizeOutcome.recognized "ok"].take 1) ++
          (transcribe_audio true ([RecognizeOutcome.requestError,
              RecognizeOutcome.recognized "ok"].get ⟨1, by decide⟩) ++ " ") ++ t :=
  segment_failure_non_fatal
    [RecognizeOutcome.requestError, RecognizeOutcome.recognized "ok"]
    0 1 (by decide) (Or.inr (by decide)) (by decide) (by decide)

/-! ### C5: outcome classification -/

/-- C5 counterexample: the code maps a request/service failure and
unrecognizable audio to the same sentinel string, so a service error is not
distinguishable from the inaudible outcome in the returned value. -/
theorem service_error_not_distinct :
    transcribe_audio true RecognizeOutcome.requestError =
      transcribe_audio true RecognizeOutcome.unknownValue ∧
    transcribe_audio true RecognizeOutcome.requestError = inaudibleSentinel :=
  ⟨rfl, rfl⟩

/-- C5 (amended): recognized text maps to the text itself, while both
unrecognizable audio and any request/service failure map to the one sentinel
`"[Inaudible response]"` — the two failure kinds are merged, not mutually
distinguishable (and a missing audio file also yields the sentinel). -/
theorem transcribe_outcome_mapping (txt : String) :
    transcribe_audio true (RecognizeOutcome.recognized txt) = txt ∧
    transcribe_audio true RecognizeOutcome.unknownValue = inaudibleSentinel ∧
    transcribe_audio true RecognizeOutcome.requestError = inaudibleSentinel ∧
    transcribe_audio false (RecognizeOutcome.recognized txt) = inaudibleSentinel :=
  ⟨rfl, rfl, rfl, rfl⟩

/-! ### C6: memory ceiling trip -/

lemma range_split (i n : ℕ) (h : i < n) :
    ∃ l2, List.range n = List.range i ++ i :: l2 := by
  refine ⟨(List.range (n - i - 1)).map (fun x => i + 1 + x), ?_⟩
  have hn : n = i + (n - i) := by omega
  conv_lhs => rw [hn, List.range_add]
  congr 1
  have h2 : n - i = (n - i - 1) + 1 := by omega
  rw [h2, List.range_succ_eq_map]
  simp only [List.map_cons, List.map_map, Nat.add_zero]
  congr 1
  apply List.map_congr_left
  intro x _
  simp only [Function.comp_apply]
  omega

/-- C6: when resident memory first exceeds the ceiling at the check before
chunk `i`, the script stops there: `main` terminates in the stopped state,
its whole trace is the `i` completed iterations followed by the tripping
memory check, so every segment-production call (subclip or write) in the
run has index below `i` and no transcription call occurs at all. -/
theorem memory_trip_halts (menv : MainEnv) (i : ℕ)
    (hex : menv.chunkEnv.videoExists = true)
    (hS0 : menv.chunkDuration ≠ 0)
    (hi : i < (numChunks menv.chunkEnv.duration menv.chunkDuration).toNat)
    (hbefore : ∀ j, j < i → menv.chunkEnv.memTrips j = false)
    (htrip : menv.chunkEnv.memTrips i = true)
    (hv : ∀ j, j < i → menv.chunkEnv.videoWriteFails j = false)
    (ha : ∀ j, j < i → menv.chunkEnv.audioWriteFails j = false) :
    main menv = MainResult.stopped
      ((List.range i).flatMap
        (iterEvents menv.chunkEnv menv.tempDir menv.chunkDuration) ++
        [Event.memCheck i]) ∧
    (∀ e ∈ (List.range i).flatMap
        (iterEvents menv.chunkEnv menv.tempDir menv.chunkDuration) ++
        [Event.memCheck i],
      (∀ p, e ≠ Event.transcribe p) ∧
      (∀ j s en, e = Event.subclip j s en → j < i) ∧
      (∀ j p, e = Event.writeVideo j p ∨ e = Event.writeAudio j p → j < i)) := by
  obtain ⟨l2, hsplit⟩ :=
    range_split i (numChunks menv.chunkEnv.duration menv.chunkDuration).toNat hi
  have hloop := chunkLoop_stopped_at menv.chunkEnv menv.tempDir menv.chunkDuration
    (List.range i) i l2
    (fun j hj => hbefore j (List.mem_range.mp hj))
    (fun j hj => hv j (List.mem_range.mp hj))
    (fun j hj => ha j (List.mem_range.mp hj))
    htrip [] []
  have hchunks : to_chunks menv.chunkEnv menv.tempDir menv.chunkDuration =
      (ChunksReturn.stopped,
        (List.range i).flatMap
          (iterEvents menv.chunkEnv menv.tempDir menv.chunkDuration) ++
          [Event.memCheck i]) := by
    simp only [to_chunks, hex, hS0]
    rw [hsplit, hloop]
    simp
  refine ⟨by simp [main, hchunks], ?_⟩
  intro e he
  rw [List.mem_append] at he
  have hcases : (∃ j, j ∈ List.range i ∧ e ∈ iterEvents menv.chunkEnv
      menv.tempDir menv.chunkDuration j) ∨ e = Event.memCheck i := by
    rcases he with he | he
    · exact Or.inl (List.mem_flatMap.mp he)
    · exact Or.inr (List.mem_singleton.mp he)
  rcases hcases with ⟨j, hj, hej⟩ | rfl
  · have hji : j < i := List.mem_range.mp hj
    simp only [iterEvents, List.mem_cons, List.mem_singleton,
      List.not_mem_nil, or_false] at hej
    rcases hej with rfl | rfl | rfl | rfl
    · exact ⟨fun p => by simp, fun k s en h => by simp at h,
        fun k p h => by rcases h with h | h <;> simp at h⟩
    · refine ⟨fun p => by simp, fun k s en h => ?_, fun k p h => ?_⟩
      · obtain ⟨rfl, -, -⟩ := Event.subclip.inj h
        exact hji
      · rcases h with h | h <;> simp at h
    · refine ⟨fun p => by simp, fun k s en h => by simp at h, fun k p h => ?_⟩
      rcases h with h | h
      · obtain ⟨rfl, -⟩ := Event.writeVideo.inj h
        exact hji
      · simp at h
    · refine ⟨fun p => by simp, fun k s en h => by simp at h, fun k p h => ?_⟩
      rcases h with h | h
      · simp at h
      · obtain ⟨rfl, -⟩ := Event.writeAudio.inj h
        exact hji
  · exact ⟨fun p => by simp, fun k s en h => by simp at h,
      fun k p h => by rcases h with h | h <;> simp at h⟩

/-- A run whose memory guard trips at the check before chunk 1. -/
def tripEnv : MainEnv :=
  { chunkEnv :=
      { videoExists := true
        duration := 150
        memTrips := fun j => j == 1
        videoWriteFails := fun _ => false
        audioWriteFails := fun _ => false }
    tempDir := "./temp"
    chunkDuration := 60
    recOutcome := fun _ => RecognizeOutcome.unknownValue }

/-- C6 witness: a 150-second source with 60-second segments whose memory
guard trips before chunk 1. -/
theorem memory_trip_halts_witness :
    main tripEnv = MainResult.stopped
      ((List.range 1).flatMap
        (iterEvents tripEnv.chunkEnv tripEnv.tempDir tripEnv.chunkDuration) ++
        [Event.memCheck 1]) ∧
    (∀ e ∈ (List.range 1).flatMap
        (iterEvents tripEnv.chunkEnv tripEnv.tempDir tripEnv.chunkDuration) ++
        [Event.memCheck 1],
      (∀ p, e ≠ Event.transcribe p) ∧
      (∀ j s en, e = Event.subclip j s en → j < 1) ∧
      (∀ j p, e = Event.writeVideo j p ∨ e = Event.writeAudio j p → j < 1)) := by
  apply memory_trip_halts tripEnv 1 rfl (by show (60 : ℚ) ≠ 0; norm_num)
  · show 1 < (numChunks (150 : ℚ) 60).toNat
    have h : numChunks (150 : ℚ) 60 = 3 := by norm_num [numChunks]
    rw [h]; decide
  · intro j hj
    have : j = 0 := Nat.lt_one_iff.mp hj
    subst this; rfl
  · rfl
  · intro j _; rfl
  · intro j _; rfl

/-! ### C7: segment artifacts are not deleted during the loop -/

lemma foldl_erase_self (l : List String) :
    List.foldl (fun fs p => fs.erase p) l l = [] := by
  induction l with
  | nil => rfl
  | cons a t ih =>
    simp only [List.foldl_cons, List.erase_cons_head]
    exact ih

/-- The chunk files written by a run, read off its event trace. -/
def writtenFiles (evs : List Event) : List String :=
  evs.filterMap (fun e =>
    match e with
    | Event.writeVideo _ p => some p
    | Event.writeAudio _ p => some p
    | _ => none)

/-- The temp-dir contents while the transcription loop of `main`
(src/main.py lines 186-198) has processed `k` chunks: the saved upload plus
every chunk file written by `to_chunks`.  The loop body contains no file
removal, so the contents are the same for every `k`; files are removed only
by the `finally` cleanup block (lines 205-218). -/
def filesDuringTranscription (tempVideo : String) (evs : List Event)
    (_k : ℕ) : List String :=
  tempVideo :: writtenFiles evs

/-- C7 counterexample: in a clean 150-second run with 60-second segments,
after the transcription attempt for chunk 0 has completed (one chunk
processed), the audio artifact of chunk 0 — and its video artifact — are
still on disk, contradicting immediate per-segment deletion. -/
theorem processed_artifact_persists :
    audioChunkPath "./temp" 0 ∈
      filesDuringTranscription "./temp/upload.mp4"
        (to_chunks (cleanEnv 150) "./temp" 60).2 1 ∧
    videoChunkPath "./temp" 0 ∈
      filesDuringTranscription "./temp/upload.mp4"
        (to_chunks (cleanEnv 150) "./temp" 60).2 1 := by
  have h3 : (numChunks (150 : ℚ) 60).toNat = 3 := by
    have h : numChunks (150 : ℚ) 60 = 3 := by norm_num [numChunks]
    rw [h]; rfl
  rw [to_chunks_clean 150 "./temp" 60 (by norm_num) 3 h3]
  simp [filesDuringTranscription, writtenFiles, List.range_succ, iterEvents]

/-- C7 (amended): segment artifacts are not deleted during the transcription
loop: for a clean run, at every point `k` of the loop every already-written
chunk artifact is still on disk; the artifacts disappear only when the final
cleanup block runs, after which the workspace holds nothing. -/
theorem artifacts_deleted_only_at_cleanup (D : ℚ) (tempDir tempVideo : String)
    (S : ℚ) (hS0 : S ≠ 0) (n : ℕ) (hn : (numChunks D S).toNat = n) :
    (∀ k i, i < n →
      audioChunkPath tempDir i ∈
        filesDuringTranscription tempVideo (to_chunks (cleanEnv D) tempDir S).2 k ∧
      videoChunkPath tempDir i ∈
        filesDuringTranscription tempVideo (to_chunks (cleanEnv D) tempDir S).2 k) ∧
    (∀ k, (cleanup_temp
        { dirExists := true
          files := filesDuringTranscription tempVideo
            (to_chunks (cleanEnv D) tempDir S).2 k }).1 =
      { dirExists := false, files := [] }) := by
  rw [to_chunks_clean D tempDir S hS0 n hn]
  constructor
  · intro k i hi
    constructor
    · simp only [filesDuringTranscription, writtenFiles, List.mem_cons]
      refine Or.inr ?_
      simp only [List.mem_filterMap, List.mem_flatMap]
      exact ⟨Event.writeAudio i (audioChunkPath tempDir i),
        ⟨i, List.mem_range.mpr hi, by simp [iterEvents]⟩, rfl⟩
    · simp only [filesDuringTranscription, writtenFiles, List.mem_cons]
      refine Or.inr ?_
      simp only [List.mem_filterMap, List.mem_flatMap]
      exact ⟨Event.writeVideo i (videoChunkPath tempDir i),
        ⟨i, List.mem_range.mpr hi, by simp [iterEvents]⟩, rfl⟩
  · intro k
    simp [cleanup_temp, foldl_erase_self]

/-- C7 witness: the clean 150-second run with 60-second segments. -/
theorem artifacts_deleted_only_at_cleanup_witness :
    (∀ k i, i < 3 →
      audioChunkPath "./temp" i ∈
        filesDuringTranscription "./temp/upload.mp4"
          (to_chunks (cleanEnv 150) "./temp" 60).2 k ∧
      videoChunkPath "./temp" i ∈
        filesDuringTranscription "./temp/upload.mp4"
          (to_chunks (cleanEnv 150) "./temp" 60).2 k) ∧
    (∀ k, (cleanup_temp
        { dirExists := true
          files := filesDuringTranscription "./temp/upload.mp4"
            (to_chunks (cleanEnv 150) "./temp" 60).2 k }).1 =
      { dirExists := false, files := [] }) :=
  artifacts_deleted_only_at_cleanup 150 "./temp" "./temp/upload.mp4" 60
    (by norm_num) 3
    (by
      have h : numChunks (150 : ℚ) 60 = 3 := by norm_num [numChunks]
      rw [h]; rfl)

/-! ### C8: non-positive segment duration -/

/-- C8 counterexample: with a 150-second source, a zero segment duration and
a negative segment duration both make `to_chunks` return the ordinary value
`([], [])` — not a distinct InvalidConfiguration failure, which does not
exist in the code.  Zero trips a `ZeroDivisionError` swallowed by the
generic handler; a negative duration makes `num_chunks` non-positive, so the
loop body never runs and the empty lists are returned as a success. -/
theorem nonpositive_duration_returns_empty :
    (to_chunks (cleanEnv 150) "./temp" 0).1 = ChunksReturn.returned [] [] ∧
    (to_chunks (cleanEnv 150) "./temp" (-60)).1 = ChunksReturn.returned [] [] := by
  constructor
  · simp [to_chunks]
  · have h0 : (numChunks (150 : ℚ) (-60)).toNat = 0 := by
      have h : numChunks (150 : ℚ) (-60) = -2 := by norm_num [numChunks]
      rw [h]; rfl
    rw [to_chunks_clean 150 "./temp" (-60) (by norm_num) 0 h0]
    simp

/-- C8 (amended): `to_chunks` performs no validation of the segment
duration.  For every non-positive segment duration (any source duration for
zero, any positive source duration for a negative value), the call returns
the plain pair `([], [])` and no InvalidConfiguration error: a zero duration
raises `ZeroDivisionError` at line 79, caught by the generic handler at line
113; a negative duration yields a non-positive `num_chunks`, an empty
`range`, and the empty lists returned as a success at line 109. -/
theorem nonpositive_duration_empty (env : Env) (tempDir : String) (S : ℚ)
    (hS : S ≤ 0) (hD : 0 < env.duration) :
    (to_chunks env tempDir S).1 = ChunksReturn.returned [] [] := by
  by_cases hex : env.videoExists
  · rcases lt_or_eq_of_le hS with hneg | heq
    · have hq : env.duration / S < 0 := div_neg_of_pos_of_neg hD hneg
      have hfl : ⌊env.duration / S⌋ < 0 := Int.floor_lt.mpr (by exact_mod_cast hq)
      have hnum : numChunks env.duration S = ⌊env.duration / S⌋ + 1 := rfl
      have hn : (numChunks env.duration S).toNat = 0 := by omega
      have hS0 : S ≠ 0 := ne_of_lt hneg
      simp [to_chunks, hex, hS0, hn, chunkLoop]
    · subst heq
      simp [to_chunks, hex]
  · simp [to_chunks, hex]

/-- C8 witness: a 150-second source with a negative segment duration. -/
theorem nonpositive_duration_empty_witness :
    (to_chunks (cleanEnv 150) "./temp" (-30)).1 = ChunksReturn.returned [] [] :=
  nonpositive_duration_empty (cleanEnv 150) "./temp" (-30) (by norm_num)
    (by norm_num [cleanEnv])

/-! ### C9: cleanup is idempotent and total -/

/-- C9: the cleanup block never lets an exception escape (the generic
handler at line 217 swallows everything, so the raised flag is always
false); after the first call on an existing workspace the directory and all
its files are gone, and a second call — whose `os.listdir` on the missing
directory raises a caught error — changes nothing and raises nothing. -/
theorem cleanup_idempotent (ws : Workspace) (h : ws.dirExists = true) :
    (cleanup_temp ws).2 = false ∧
    (cleanup_temp ws).1.dirExists = false ∧
    (cleanup_temp ws).1.files = [] ∧
    cleanup_temp (cleanup_temp ws).1 = ((cleanup_temp ws).1, false) := by
  have hrem : List.foldl (fun fs p => fs.erase p) ws.files ws.files = [] :=
    foldl_erase_self ws.files
  simp [cleanup_temp, h, hrem]

/-- C9 witness: a workspace holding two artifacts. -/
theorem cleanup_idempotent_witness :
    (cleanup_temp ⟨true, ["u.mp4", "audio_chunk_0.wav"]⟩).2 = false ∧
    (cleanup_temp ⟨true, ["u.mp4", "audio_chunk_0.wav"]⟩).1.dirExists = false ∧
    (cleanup_temp ⟨true, ["u.mp4", "audio_chunk_0.wav"]⟩).1.files = [] ∧
    cleanup_temp (cleanup_temp ⟨true, ["u.mp4", "audio_chunk_0.wav"]⟩).1 =
      ((cleanup_temp ⟨true, ["u.mp4", "audio_chunk_0.wav"]⟩).1, false) :=
  cleanup_idempotent ⟨true, ["u.mp4", "audio_chunk_0.wav"]⟩ rfl

end Transcribo
